import Mathlib

/-!
GitConsensus: vote tallying and consensus decision engine.

A shallow embedding of `gitconsensus/repository.py`: the tally loop of
`PullRequest.__init__`, the time computations (`hoursSinceLastCommit`,
`hoursSincePullOpened`, `hoursSinceLastUpdate`), the decision predicates of
class `Consensus` (`validate`, `isMergeable`, `hasQuorum`, `hasVotes`,
`hasAged`), and `PullRequest.validate` / `PullRequest.shouldClose` /
`PullRequest.isBlocked`.

Conventions of the embedding:
* Python lists of usernames become `List String`; `list.remove` (which removes
  the first occurrence) becomes `List.erase`; `x in l` becomes `x ∈ l`.
* The YAML rules dictionary becomes a record of `Option` fields: `none` means
  the key is absent; a key present with a truthy value becomes `field = some true`.
* Timestamps are integer Unix seconds.  The Python `timedelta.seconds` attribute
  is the total delta modulo 86400 (it discards whole days), which is `% 86400`
  on `Int` (Euclidean remainder, matching the Python `%`).  The source divides
  that by `360`; the embedding keeps the literal `/ 360` over `ℚ`.
* The source body `if not isCollaborator(username)` refers to a name that is
  undefined at the call site (`Repository.isCollaborator` is also defined
  without `self`), so reaching that statement raises `NameError`.  Fallible
  paths are modelled with `Except Unit`, `.error ()` standing for the raised
  exception.  Likewise `hoursSinceLastCommit` raises `NameError` when the
  pull request has no commits (`commit_date_string` is never bound).
-/

namespace GitConsensus

/-- One reaction event as delivered by the reactions API: a raw content
string and the login of the reacting user. -/
structure Reaction where
  content : String
  user : String
deriving DecidableEq, Repr

/-- The `.gitconsensus.yaml` rules dictionary.  A field is `none` when the
key is absent from the document. -/
structure Rules where
  collaborators_only : Option Bool := none
  contributors_only : Option Bool := none
  whitelist : Option (List String) := none
  prevent_doubles : Option Bool := none
  quorum : Option Nat := none
  threshold : Option ℚ := none
  mergedelay : Option ℚ := none
  timeout : Option ℚ := none
deriving DecidableEq, Repr

/-- The five vote lists built by the loop in `PullRequest.__init__`:
`self.yes`, `self.no`, `self.abstain`, `self.users`, `self.doubles`. -/
structure Tally where
  yes : List String := []
  no : List String := []
  abstain : List String := []
  users : List String := []
  doubles : List String := []
deriving DecidableEq, Repr

/-- The whitelist check of the loop: skip when a whitelist is configured and
the username is not in it. -/
def whitelistSkip (rules : Rules) (username : String) : Bool :=
  match rules.whitelist with
  | some wl => decide (username ∉ wl)
  | none => false

/-- The tail of each vote branch: append the username to `users` unless it
is already present. -/
def addUser (t : Tally) (username : String) : Tally :=
  if username ∈ t.users then t else { t with users := t.users ++ [username] }

/-- One iteration of the reaction loop in `PullRequest.__init__`
(lines 103–146 of `repository.py`), acting on the current `Tally`.
`.error ()` is the `NameError` raised by the call to the undefined name
`isCollaborator` when `collaborators_only` is enabled. -/
def processReaction (rules : Rules) (isContributor : String → Bool)
    (t : Tally) (r : Reaction) : Except Unit Tally :=
  let username := r.user
  if username ∈ t.doubles then .ok t
  else if rules.collaborators_only = some true then .error ()
  else if rules.contributors_only = some true ∧ isContributor username = false then .ok t
  else if whitelistSkip rules username then .ok t
  else if rules.prevent_doubles = some true ∧ username ∈ t.users then
    .ok { yes := t.yes.erase username
          no := t.no.erase username
          abstain := t.abstain.erase username
          users := t.users.erase username
          doubles := t.doubles ++ [username] }
  else if r.content = "+1" then .ok (addUser { t with yes := t.yes ++ [username] } username)
  else if r.content = "-1" then .ok (addUser { t with no := t.no ++ [username] } username)
  else if r.content = "confused" then .ok (addUser { t with abstain := t.abstain ++ [username] } username)
  else .ok t

/-- The reaction loop folded over the event list, from an arbitrary
starting state. -/
def buildTallyFrom (rules : Rules) (isContributor : String → Bool)
    (t : Tally) : List Reaction → Except Unit Tally
  | [] => .ok t
  | r :: rs =>
    match processReaction rules isContributor t r with
    | .ok t' => buildTallyFrom rules isContributor t' rs
    | .error e => .error e

/-- The full tally construction of `PullRequest.__init__`: the loop run from
the five freshly initialised empty lists. -/
def buildTally (rules : Rules) (isContributor : String → Bool)
    (rs : List Reaction) : Except Unit Tally :=
  buildTallyFrom rules isContributor {} rs

/-- The data of one pull request that the decision predicates read: the
tally built above, the issue labels, the platform mergeable flag, the
creation timestamp (`pr.created_at`) and the commit author dates in the
order `iter_commits` yields them, all in Unix seconds. -/
structure PRState where
  tally : Tally := {}
  labels : List String := []
  mergeable : Bool := true
  createdAt : ℤ := 0
  commitDates : List ℤ := []
deriving DecidableEq, Repr

/-- The `for commit in commits:` loop of `hoursSinceLastCommit`: it leaves
`commit_date_string` bound to the date of the *last iterated* commit, and
unbound (`none`) when there are no commits. -/
def lastIterCommitDate (dates : List ℤ) : Option ℤ :=
  dates.foldl (fun _ d => some d) none

/-- The Python `timedelta.seconds` attribute: the seconds component after
normalisation, i.e. the total delta modulo 86400 (whole days discarded). -/
def pyDeltaSeconds (delta : ℤ) : ℤ :=
  delta % 86400

/-- `PullRequest.hoursSinceLastCommit`: the seconds component of
`now - commit_date` divided by 360 (sic — the source divides by 360, not
3600).  `.error ()` is the `NameError` on a pull request with no commits. -/
def hoursSinceLastCommit (pr : PRState) (now : ℤ) : Except Unit ℚ :=
  match lastIterCommitDate pr.commitDates with
  | none => .error ()
  | some d => .ok ((pyDeltaSeconds (now - d) : ℚ) / 360)

/-- `PullRequest.hoursSincePullOpened`: the seconds component of
`now - created_at` divided by 360. -/
def hoursSincePullOpened (pr : PRState) (now : ℤ) : ℚ :=
  (pyDeltaSeconds (now - pr.createdAt) : ℚ) / 360

/-- `PullRequest.hoursSinceLastUpdate`: the smaller of `hoursSincePullOpened`
and `hoursSinceLastCommit`. -/
def hoursSinceLastUpdate (pr : PRState) (now : ℤ) : Except Unit ℚ :=
  match hoursSinceLastCommit pr now with
  | .error e => .error e
  | .ok hc =>
    let ho := hoursSincePullOpened pr now
    if ho < hc then .ok ho else .ok hc

/-- The Python `str.lower` method on the ASCII label strings: each character
lowercased in place. -/
def pyLower (s : String) : String :=
  ⟨s.data.map Char.toLower⟩

/-- `PullRequest.isBlocked`: the lowercased label list contains `wip` or
`dontmerge`. -/
def isBlocked (pr : PRState) : Bool :=
  let labels := pr.labels.map (fun item => pyLower item)
  if ("wip" ∈ labels) then true
  else if ("dontmerge" ∈ labels) then true
  else false

/-- `PullRequest.shouldClose`: true when a `timeout` rule is configured and
`hoursSinceLastCommit` meets or exceeds it. -/
def shouldClose (rules : Rules) (pr : PRState) (now : ℤ) : Except Unit Bool :=
  match rules.timeout with
  | some tmo =>
    match hoursSinceLastCommit pr now with
    | .error e => .error e
    | .ok h => if h ≥ tmo then .ok true else .ok false
  | none => .ok false

namespace Consensus

/-- `Consensus.isMergeable`: the platform mergeable flag. -/
def isMergeable (pr : PRState) : Bool :=
  if !pr.mergeable then false else true

/-- `Consensus.hasQuorum`: when a `quorum` rule is configured, fail if
`len(pr.users)` is below it; otherwise pass. -/
def hasQuorum (rules : Rules) (pr : PRState) : Bool :=
  match rules.quorum with
  | some q => if pr.tally.users.length < q then false else true
  | none => true

/-- `Consensus.hasVotes`: when a `threshold` rule is configured, fail when
`len(yes) + len(no)` is zero, or when `len(yes) / total` is below the
threshold; otherwise pass. -/
def hasVotes (rules : Rules) (pr : PRState) : Bool :=
  match rules.threshold with
  | some th =>
    let total : ℕ := pr.tally.yes.length + pr.tally.no.length
    if total ≤ 0 then false
    else if (pr.tally.yes.length : ℚ) / (total : ℚ) < th then false
    else true
  | none => true

/-- `Consensus.hasAged`: when a `mergedelay` rule is configured, fail if
`hoursSinceLastUpdate` is below it; otherwise pass. -/
def hasAged (rules : Rules) (pr : PRState) (now : ℤ) : Except Unit Bool :=
  match rules.mergedelay with
  | some d =>
    match hoursSinceLastUpdate pr now with
    | .error e => .error e
    | .ok h => if h < d then .ok false else .ok true
  | none => .ok true

/-- `Consensus.validate`: the early-return chain over the five criteria. -/
def validate (rules : Rules) (pr : PRState) (now : ℤ) : Except Unit Bool :=
  if isBlocked pr then .ok false
  else if !isMergeable pr then .ok false
  else if !hasQuorum rules pr then .ok false
  else if !hasVotes rules pr then .ok false
  else
    match hasAged rules pr now with
    | .error e => .error e
    | .ok a => if !a then .ok false else .ok true

end Consensus

/-- `PullRequest.validate`: returns `False` outright when the repository has
no rules (`self.repository.rules == False`), otherwise defers to
`Consensus.validate`. -/
def PullRequest.validate (rules : Option Rules) (pr : PRState) (now : ℤ) :
    Except Unit Bool :=
  match rules with
  | none => .ok false
  | some r => Consensus.validate r pr now

/-! ## Helper lemmas about the tally loop -/

theorem addUser_yes (t : Tally) (u : String) : (addUser t u).yes = t.yes := by
  unfold addUser; split <;> rfl

theorem addUser_no (t : Tally) (u : String) : (addUser t u).no = t.no := by
  unfold addUser; split <;> rfl

theorem addUser_abstain (t : Tally) (u : String) : (addUser t u).abstain = t.abstain := by
  unfold addUser; split <;> rfl

theorem addUser_doubles (t : Tally) (u : String) : (addUser t u).doubles = t.doubles := by
  unfold addUser; split <;> rfl

theorem mem_addUser_users {t : Tally} {u v : String} :
    v ∈ (addUser t u).users ↔ v ∈ t.users ∨ v = u := by
  unfold addUser
  split <;> rename_i hmem <;> simp
  intro hv; subst hv; exact hmem

/-- An event from a voter already recorded in `doubles` is skipped outright. -/
theorem processReaction_skip_of_doubles (rules : Rules) (f : String → Bool)
    (t : Tally) (r : Reaction) (hd : r.user ∈ t.doubles) :
    processReaction rules f t r = .ok t := by
  simp [processReaction, hd]

/-- A voter who is in `doubles` and absent from the four other lists stays
that way across any single loop iteration. -/
theorem processReaction_preserves_voteless {rules : Rules} {f : String → Bool}
    {t t' : Tally} {r : Reaction} {u : String}
    (h : processReaction rules f t r = .ok t')
    (hd : u ∈ t.doubles) (hy : u ∉ t.yes) (hn : u ∉ t.no) (ha : u ∉ t.abstain)
    (hu : u ∉ t.users) :
    u ∈ t'.doubles ∧ u ∉ t'.yes ∧ u ∉ t'.no ∧ u ∉ t'.abstain ∧ u ∉ t'.users := by
  by_cases hru : r.user = u
  · rw [processReaction_skip_of_doubles rules f t r (hru ▸ hd)] at h
    cases h
    exact ⟨hd, hy, hn, ha, hu⟩
  · simp only [processReaction] at h
    split at h
    · cases h; exact ⟨hd, hy, hn, ha, hu⟩
    split at h
    · cases h
    split at h
    · cases h; exact ⟨hd, hy, hn, ha, hu⟩
    split at h
    · cases h; exact ⟨hd, hy, hn, ha, hu⟩
    split at h
    · cases h
      refine ⟨List.mem_append_left _ hd, ?_, ?_, ?_, ?_⟩ <;>
        intro hc <;>
        first
          | exact hy (List.mem_of_mem_erase hc)
          | exact hn (List.mem_of_mem_erase hc)
          | exact ha (List.mem_of_mem_erase hc)
          | exact hu (List.mem_of_mem_erase hc)
    split at h
    · cases h
      simp only [addUser_yes, addUser_no, addUser_abstain, addUser_doubles,
        mem_addUser_users, List.mem_append, List.mem_singleton, not_or]
      exact ⟨hd, ⟨hy, fun hc => hru hc.symm⟩, hn, ha, hu, fun hc => hru hc.symm⟩
    split at h
    · cases h
      simp only [addUser_yes, addUser_no, addUser_abstain, addUser_doubles,
        mem_addUser_users, List.mem_append, List.mem_singleton, not_or]
      exact ⟨hd, hy, ⟨hn, fun hc => hru hc.symm⟩, ha, hu, fun hc => hru hc.symm⟩
    split at h
    · cases h
      simp only [addUser_yes, addUser_no, addUser_abstain, addUser_doubles,
        mem_addUser_users, List.mem_append, List.mem_singleton, not_or]
      exact ⟨hd, hy, hn, ⟨ha, fun hc => hru hc.symm⟩, hu, fun hc => hru hc.symm⟩
    · cases h; exact ⟨hd, hy, hn, ha, hu⟩

/-- A voter who is in `doubles` and absent from the four other lists stays
that way for the whole rest of the event sequence. -/
theorem buildTallyFrom_preserves_voteless (rules : Rules) (f : String → Bool)
    (u : String) :
    ∀ (evs : List Reaction) (t t' : Tally),
      buildTallyFrom rules f t evs = .ok t' →
      u ∈ t.doubles → u ∉ t.yes → u ∉ t.no → u ∉ t.abstain → u ∉ t.users →
      u ∈ t'.doubles ∧ u ∉ t'.yes ∧ u ∉ t'.no ∧ u ∉ t'.abstain ∧ u ∉ t'.users
  | [], t, t', h => by
    intro hd hy hn ha hu
    cases h
    exact ⟨hd, hy, hn, ha, hu⟩
  | r :: rs, t, t', h => by
    intro hd hy hn ha hu
    simp only [buildTallyFrom] at h
    cases hp : processReaction rules f t r with
    | error e => rw [hp] at h; cases h
    | ok t1 =>
      rw [hp] at h
      obtain ⟨hd1, hy1, hn1, ha1, hu1⟩ :=
        processReaction_preserves_voteless hp hd hy hn ha hu
      exact buildTallyFrom_preserves_voteless rules f u rs t1 t' h hd1 hy1 hn1 ha1 hu1

/-! ## Concrete states used by the claims -/

/-- A pull request opened 10 hours before the evaluation instant 36000 and
whose last commit is 2 hours before it. -/
def agingPR : PRState :=
  { createdAt := 0, commitDates := [28800] }

/-- A pull request whose label set is `{"WIP"}` but which passes every other
criterion under `fullRules` at instant 1800: one yes vote, one voter,
mergeable, opened and committed 1800 seconds (5 source-units) earlier. -/
def blockedPR : PRState :=
  { tally := { yes := ["a"], users := ["a"] }, labels := ["WIP"], mergeable := true,
    createdAt := 0, commitDates := [0] }

/-- Rules with quorum 1, threshold 1/2 and mergedelay 1 all configured. -/
def fullRules : Rules :=
  { quorum := some 1, threshold := some (1/2), mergedelay := some 1 }

/-! ## Claims -/

/-- C10: when the repository has no policy configured
(`self.repository.rules == False`), `PullRequest.validate` returns `False`
without evaluating any consensus criterion and without raising: the result is
`.ok false` for every pull request state and every evaluation instant. -/
theorem validate_without_rules_is_false (pr : PRState) (now : ℤ) :
    PullRequest.validate none pr now = .ok false := rfl

/-- C9, a code bug: with `collaborators_only` enabled, the tally
construction does *not* complete normally on an event from any voter — the
body `if not isCollaborator(username)` refers to an undefined name, so the
loop raises `NameError` instead of skipping the voter.  Here: a single
reaction `(alice, "+1")`. -/
theorem collaborators_only_raises :
    buildTally { collaborators_only := some true } (fun _ => true)
      [⟨"+1", "alice"⟩] = .error () := rfl

/-- C6, a code bug: for a pull request opened 10 hours ago whose last
commit was 2 hours ago, the source computes `delta.seconds / 360`, so the
effective age is `min(100, 20) = 20`, not `min(10, 2) = 2` hours, and with
`mergedelay = 5` the `hasAged` criterion *passes* (the claim says it fails). -/
theorem aging_at_claimed_example :
    hoursSincePullOpened agingPR 36000 = 100 ∧
    hoursSinceLastCommit agingPR 36000 = .ok 20 ∧
    hoursSinceLastUpdate agingPR 36000 = .ok 20 ∧
    Consensus.hasAged { mergedelay := some 5 } agingPR 36000 = .ok true := by
  refine ⟨?_, ?_, ?_, ?_⟩ <;>
    simp [hoursSincePullOpened, hoursSinceLastCommit, hoursSinceLastUpdate,
      Consensus.hasAged, lastIterCommitDate, pyDeltaSeconds, agingPR] <;>
    norm_num

/-- C7: `hasQuorum` passes iff the configured quorum is at most
`len(users)`, and always passes when no `quorum` key is configured. -/
theorem hasQuorum_spec :
    (∀ (rules : Rules) (pr : PRState) (q : ℕ), rules.quorum = some q →
      (Consensus.hasQuorum rules pr = true ↔ q ≤ pr.tally.users.length)) ∧
    (∀ (rules : Rules) (pr : PRState), rules.quorum = none →
      Consensus.hasQuorum rules pr = true) := by
  constructor
  · intro rules pr q hq
    simp only [Consensus.hasQuorum, hq]
    split <;> simp <;> omega
  · intro rules pr hq
    simp [Consensus.hasQuorum, hq]

/-- Witness for C7: quorum 3 with exactly 3 distinct voters passes; with no
quorum key, zero voters still pass. -/
theorem hasQuorum_spec_witness :
    Consensus.hasQuorum { quorum := some 3 }
      { tally := { users := ["a", "b", "c"] } } = true ∧
    Consensus.hasQuorum {} { tally := { users := [] } } = true :=
  ⟨(hasQuorum_spec.1 { quorum := some 3 }
      { tally := { users := ["a", "b", "c"] } } 3 rfl).mpr (by decide),
   hasQuorum_spec.2 {} { tally := { users := [] } } rfl⟩

/-- C3: `hasVotes` with a configured threshold: fails when
`len(yes) + len(no) = 0`; otherwise passes iff `yes/total ≥ threshold`
(a ratio exactly at the threshold passes); with no threshold it always
passes.  Boundary: threshold 1/2 with yes=1, no=1 passes; yes=1, no=2
fails. -/
theorem hasVotes_spec :
    (∀ (rules : Rules) (pr : PRState) (th : ℚ), rules.threshold = some th →
      (pr.tally.yes.length + pr.tally.no.length = 0 →
        Consensus.hasVotes rules pr = false) ∧
      (0 < pr.tally.yes.length + pr.tally.no.length →
        (Consensus.hasVotes rules pr = true ↔
          th ≤ (pr.tally.yes.length : ℚ) /
            ((pr.tally.yes.length + pr.tally.no.length : ℕ) : ℚ)))) ∧
    (∀ (rules : Rules) (pr : PRState), rules.threshold = none →
      Consensus.hasVotes rules pr = true) ∧
    Consensus.hasVotes { threshold := some (1/2) }
      { tally := { yes := ["a"], no := ["b"] } } = true ∧
    Consensus.hasVotes { threshold := some (1/2) }
      { tally := { yes := ["a"], no := ["b", "c"] } } = false := by
  refine ⟨?_, ?_, ?_, ?_⟩
  · intro rules pr th hth
    constructor
    · intro h0
      simp [Consensus.hasVotes, hth, h0]
    · intro hpos
      simp only [Consensus.hasVotes, hth]
      have hne : ¬ pr.tally.yes.length + pr.tally.no.length ≤ 0 := by omega
      simp only [hne, if_false]
      split <;> rename_i hlt <;> push_cast at hlt <;> simp
      · exact hlt
      · linarith [not_lt.mp hlt]
  · intro rules pr hth
    simp [Consensus.hasVotes, hth]
  · simp [Consensus.hasVotes]
  · simp [Consensus.hasVotes]
    norm_num

/-- Witness for C3: instantiates the threshold characterisation at
threshold 1/2 with yes=1, no=1 (ratio exactly at the threshold ⇒ passes)
and at a tally with no decisive votes (⇒ fails). -/
theorem hasVotes_spec_witness :
    Consensus.hasVotes { threshold := some (1/2) }
      { tally := { yes := ["a"], no := ["b"] } } = true ∧
    Consensus.hasVotes { threshold := some (1/2) }
      { tally := { abstain := ["a", "b"] } } = false :=
  ⟨((hasVotes_spec.1 { threshold := some (1/2) }
      { tally := { yes := ["a"], no := ["b"] } } (1/2) rfl).2 (by decide)).mpr
      (by simp),
   (hasVotes_spec.1 { threshold := some (1/2) }
      { tally := { abstain := ["a", "b"] } } (1/2) rfl).1 rfl⟩

/-- C8: `shouldClose` is `.ok true` iff a `timeout` rule is configured
and `hoursSinceLastCommit` meets or exceeds it; it is `.ok false` whenever
no timeout is configured; and it does not depend on the vote tally, the
labels or the mergeable flag. -/
theorem shouldClose_spec :
    (∀ (rules : Rules) (pr : PRState) (now : ℤ) (tmo h : ℚ),
      rules.timeout = some tmo → hoursSinceLastCommit pr now = .ok h →
      (shouldClose rules pr now = .ok true ↔ tmo ≤ h)) ∧
    (∀ (rules : Rules) (pr : PRState) (now : ℤ), rules.timeout = none →
      shouldClose rules pr now = .ok false) ∧
    (∀ (rules : Rules) (pr : PRState) (now : ℤ) (t : Tally)
      (ls : List String) (m : Bool),
      shouldClose rules { pr with tally := t, labels := ls, mergeable := m } now =
        shouldClose rules pr now) := by
  refine ⟨?_, ?_, ?_⟩
  · intro rules pr now tmo h htmo hlc
    simp only [shouldClose, htmo, hlc]
    split <;> rename_i hge <;> simp
    · exact hge
    · exact not_le.mp hge
  · intro rules pr now htmo
    simp [shouldClose, htmo]
  · intro rules pr now t ls m
    rfl

/-- Witness for C8: a 2-hour-old commit under `timeout = 10`
(`hoursSinceLastCommit` evaluates to 20 source-units ≥ 10 ⇒ close), and a
rules record with no timeout key (⇒ never close). -/
theorem shouldClose_spec_witness :
    shouldClose { timeout := some 10 } agingPR 36000 = .ok true ∧
    shouldClose {} agingPR 36000 = .ok false :=
  ⟨(shouldClose_spec.1 { timeout := some 10 } agingPR 36000 10 20 rfl
      (by simp [hoursSinceLastCommit, lastIterCommitDate, pyDeltaSeconds, agingPR]; norm_num)).mpr
      (by norm_num),
   shouldClose_spec.2.1 {} agingPR 36000 rfl⟩

/-- C2: `Consensus.validate` equals the conjunction of the five
criteria whenever `hasAged` evaluates normally; and on a pull request whose
labels contain `"WIP"` it returns `.ok false` even though mergeability,
quorum, threshold and aging all pass. -/
theorem validate_is_and_of_criteria :
    (∀ (rules : Rules) (pr : PRState) (now : ℤ) (a : Bool),
      Consensus.hasAged rules pr now = .ok a →
      Consensus.validate rules pr now =
        .ok (!isBlocked pr && Consensus.isMergeable pr &&
          Consensus.hasQuorum rules pr && Consensus.hasVotes rules pr && a)) ∧
    (Consensus.isMergeable blockedPR = true ∧
     Consensus.hasQuorum fullRules blockedPR = true ∧
     Consensus.hasVotes fullRules blockedPR = true ∧
     Consensus.hasAged fullRules blockedPR 1800 = .ok true ∧
     Consensus.validate fullRules blockedPR 1800 = .ok false) := by
  constructor
  · intro rules pr now a ha
    cases hbv : isBlocked pr <;> cases hmv : Consensus.isMergeable pr <;>
      cases hqv : Consensus.hasQuorum rules pr <;>
      cases hvv : Consensus.hasVotes rules pr <;>
      cases a <;> simp_all [Consensus.validate]
  · refine ⟨rfl, rfl, ?_, ?_, ?_⟩
    · norm_num [Consensus.hasVotes, fullRules, blockedPR]
    · norm_num [Consensus.hasAged, hoursSinceLastUpdate, hoursSinceLastCommit,
        hoursSincePullOpened, lastIterCommitDate, pyDeltaSeconds, fullRules, blockedPR]
    · have hb : isBlocked blockedPR = true := by decide
      simp [Consensus.validate, hb]

/-- Witness for C2: the conjunction form instantiated on the concrete
blocked pull request, using its `hasAged` evaluation. -/
theorem validate_is_and_of_criteria_witness :
    Consensus.validate fullRules blockedPR 1800 = .ok false := by
  have h := validate_is_and_of_criteria
  have hv := h.1 fullRules blockedPR 1800 true h.2.2.2.2.1
  have hb : isBlocked blockedPR = true := by decide
  simpa [hb] using hv

/-- C1: with `prevent_doubles` enabled: (i) the first repeat event from
a voter already in `users` (that passes the eligibility checks) removes the
voter from whichever of yes/no/abstain it occupied and from `users`, and
appends it to `doubles`; (ii) from then on the voter stays excluded and
voteless for the rest of the sequence; (iii) end to end, the reactions
`[(alice,"+1"), (bob,"-1"), (alice,"-1")]` produce yes = ∅, no = {bob},
excludedDoubles = {alice}, allVoters = {bob}. -/
theorem prevent_doubles_voids_repeat_voter :
    (∀ (rules : Rules) (f : String → Bool) (t : Tally) (r : Reaction),
      rules.prevent_doubles = some true →
      r.user ∉ t.doubles →
      rules.collaborators_only ≠ some true →
      ¬(rules.contributors_only = some true ∧ f r.user = false) →
      whitelistSkip rules r.user = false →
      r.user ∈ t.users →
      processReaction rules f t r =
        .ok { yes := t.yes.erase r.user, no := t.no.erase r.user,
              abstain := t.abstain.erase r.user, users := t.users.erase r.user,
              doubles := t.doubles ++ [r.user] }) ∧
    (∀ (rules : Rules) (f : String → Bool) (evs : List Reaction)
      (t t' : Tally) (u : String),
      buildTallyFrom rules f t evs = .ok t' →
      u ∈ t.doubles → u ∉ t.yes → u ∉ t.no → u ∉ t.abstain → u ∉ t.users →
      u ∈ t'.doubles ∧ u ∉ t'.yes ∧ u ∉ t'.no ∧ u ∉ t'.abstain ∧ u ∉ t'.users) ∧
    buildTally { prevent_doubles := some true } (fun _ => true)
      [⟨"+1", "alice"⟩, ⟨"-1", "bob"⟩, ⟨"-1", "alice"⟩] =
      .ok { yes := [], no := ["bob"], abstain := [], users := ["bob"],
            doubles := ["alice"] } := by
  refine ⟨?_, ?_, rfl⟩
  · intro rules f t r hpd hd hcol hcon hwl husers
    simp only [processReaction]
    rw [if_neg hd, if_neg hcol, if_neg hcon,
      if_neg (by simp [hwl] : ¬ whitelistSkip rules r.user = true),
      if_pos ⟨hpd, husers⟩]
  · intro rules f evs t t' u h hd hy hn ha hu
    exact buildTallyFrom_preserves_voteless rules f u evs t t' h hd hy hn ha hu

/-- Witness for C1: the step clause applied at a concrete repeat vote —
alice, already the sole yes-voter, votes again and lands in `doubles` with
every other list emptied of her. -/
theorem prevent_doubles_voids_repeat_voter_witness :
    processReaction { prevent_doubles := some true } (fun _ => true)
      { yes := ["alice"], users := ["alice"] } ⟨"-1", "alice"⟩ =
      .ok { yes := [], no := [], abstain := [], users := [], doubles := ["alice"] } := by
  have h := prevent_doubles_voids_repeat_voter.1 { prevent_doubles := some true }
    (fun _ => true) { yes := ["alice"], users := ["alice"] } ⟨"-1", "alice"⟩
    rfl (by decide) (by decide) (by decide) rfl (by decide)
  simpa using h

/-- C5 counterexample to the claim as stated: with
`prevent_doubles` enabled, the *unmapped* reaction `"heart"` from alice —
who already has a counted `+1` vote — does trigger the double-vote logic
(the `prevent_doubles` check precedes the content mapping in the loop), so
the tally does not stay unchanged. -/
theorem unmapped_reaction_can_exclude_cex :
    processReaction { prevent_doubles := some true } (fun _ => true)
      { yes := ["alice"], users := ["alice"] } ⟨"heart", "alice"⟩ =
      .ok { yes := [], no := [], abstain := [], users := [],
            doubles := ["alice"] } ∧
    ({ yes := [], no := [], abstain := [], users := [], doubles := ["alice"] } : Tally) ≠
      { yes := ["alice"], users := ["alice"] } :=
  ⟨rfl, by decide⟩

/-- C5 as amended: an event whose content is none of `"+1"`, `"-1"`,
`"confused"` leaves the tally unchanged (in particular the voter is not
added to `users`), *provided* the policy does not enable
`collaborators_only` (whose code path raises) and it is not the case that
`prevent_doubles` is set while the voter is already in `users` (in which
case the double-vote exclusion fires before the content is examined). -/
theorem unmapped_reaction_leaves_tally :
    ∀ (rules : Rules) (f : String → Bool) (t : Tally) (r : Reaction),
      r.content ≠ "+1" → r.content ≠ "-1" → r.content ≠ "confused" →
      rules.collaborators_only ≠ some true →
      ¬(rules.prevent_doubles = some true ∧ r.user ∈ t.users) →
      processReaction rules f t r = .ok t := by
  intro rules f t r h1 h2 h3 hcol hpd
  by_cases hd : r.user ∈ t.doubles
  · exact processReaction_skip_of_doubles rules f t r hd
  simp only [processReaction]
  rw [if_neg hd, if_neg hcol]
  by_cases hcon : rules.contributors_only = some true ∧ f r.user = false
  · rw [if_pos hcon]
  rw [if_neg hcon]
  by_cases hwl : whitelistSkip rules r.user = true
  · rw [if_pos hwl]
  rw [if_neg hwl, if_neg hpd, if_neg h1, if_neg h2, if_neg h3]

/-- Witness for C5 (amended): a `"heart"` reaction from a voter with no
prior counted vote, under a `prevent_doubles` policy, leaves the starting
tally exactly as it was. -/
theorem unmapped_reaction_leaves_tally_witness :
    processReaction { prevent_doubles := some true } (fun _ => true)
      { no := ["bob"], users := ["bob"] } ⟨"heart", "alice"⟩ =
      .ok { no := ["bob"], users := ["bob"] } :=
  unmapped_reaction_leaves_tally { prevent_doubles := some true } (fun _ => true)
    { no := ["bob"], users := ["bob"] } ⟨"heart", "alice"⟩
    (by decide) (by decide) (by decide) (by decide) (by decide)

/-! ## Tally invariants (C4) -/

/-- Invariant maintained for *every* policy: `users` has no duplicates and
is disjoint from `doubles`. -/
def UsersInv (t : Tally) : Prop :=
  t.users.Nodup ∧ ∀ u, u ∈ t.users → u ∉ t.doubles

/-- Invariant maintained when `prevent_doubles` is enabled: the three vote
lists are duplicate-free, contained in `users`, and pairwise disjoint. -/
def PDInv (t : Tally) : Prop :=
  t.users.Nodup ∧ t.yes.Nodup ∧ t.no.Nodup ∧ t.abstain.Nodup ∧
  (∀ u, u ∈ t.yes → u ∈ t.users) ∧
  (∀ u, u ∈ t.no → u ∈ t.users) ∧
  (∀ u, u ∈ t.abstain → u ∈ t.users) ∧
  (∀ u, u ∈ t.yes → u ∉ t.no) ∧
  (∀ u, u ∈ t.yes → u ∉ t.abstain) ∧
  (∀ u, u ∈ t.no → u ∉ t.abstain)

theorem nodup_addUser_users {t : Tally} {u : String} (hnd : t.users.Nodup) :
    (addUser t u).users.Nodup := by
  unfold addUser
  split
  · exact hnd
  · rename_i hmem
    simp [List.nodup_append, hnd, hmem]

theorem processReaction_usersInv {rules : Rules} {f : String → Bool}
    {t t' : Tally} {r : Reaction}
    (h : processReaction rules f t r = .ok t') (hI : UsersInv t) : UsersInv t' := by
  obtain ⟨hnd, hdisj⟩ := hI
  by_cases hd : r.user ∈ t.doubles
  · rw [processReaction_skip_of_doubles rules f t r hd] at h
    cases h; exact ⟨hnd, hdisj⟩
  simp only [processReaction] at h
  rw [if_neg hd] at h
  by_cases hcol : rules.collaborators_only = some true
  · rw [if_pos hcol] at h; cases h
  rw [if_neg hcol] at h
  by_cases hcon : rules.contributors_only = some true ∧ f r.user = false
  · rw [if_pos hcon] at h; cases h; exact ⟨hnd, hdisj⟩
  rw [if_neg hcon] at h
  by_cases hwl : whitelistSkip rules r.user = true
  · rw [if_pos hwl] at h; cases h; exact ⟨hnd, hdisj⟩
  rw [if_neg hwl] at h
  by_cases hpd : rules.prevent_doubles = some true ∧ r.user ∈ t.users
  · rw [if_pos hpd] at h
    cases h
    refine ⟨hnd.erase _, ?_⟩
    intro v hv
    rw [hnd.mem_erase_iff] at hv
    simp only [List.mem_append, List.mem_singleton, not_or]
    exact ⟨hdisj v hv.2, hv.1⟩
  rw [if_neg hpd] at h
  have haddInv : ∀ t₁ : Tally, t₁.users = t.users → t₁.doubles = t.doubles →
      UsersInv (addUser t₁ r.user) := by
    intro t₁ hus hdo
    refine ⟨nodup_addUser_users (hus ▸ hnd), ?_⟩
    intro v hv
    rw [mem_addUser_users, hus] at hv
    rw [addUser_doubles, hdo]
    cases hv with
    | inl hv => exact hdisj v hv
    | inr hv => exact hv ▸ hd
  by_cases h1 : r.content = "+1"
  · rw [if_pos h1] at h; cases h; exact haddInv _ rfl rfl
  rw [if_neg h1] at h
  by_cases h2 : r.content = "-1"
  · rw [if_pos h2] at h; cases h; exact haddInv _ rfl rfl
  rw [if_neg h2] at h
  by_cases h3 : r.content = "confused"
  · rw [if_pos h3] at h; cases h; exact haddInv _ rfl rfl
  rw [if_neg h3] at h
  cases h
  exact ⟨hnd, hdisj⟩

theorem buildTallyFrom_usersInv (rules : Rules) (f : String → Bool) :
    ∀ (evs : List Reaction) (t t' : Tally),
      buildTallyFrom rules f t evs = .ok t' → UsersInv t → UsersInv t'
  | [], t, t', h => by
    cases h; exact id
  | r :: rs, t, t', h => by
    intro hI
    simp only [buildTallyFrom] at h
    cases hp : processReaction rules f t r with
    | error e => rw [hp] at h; cases h
    | ok t1 =>
      rw [hp] at h
      exact buildTallyFrom_usersInv rules f rs t1 t' h (processReaction_usersInv hp hI)

theorem processReaction_pdInv {rules : Rules} {f : String → Bool}
    {t t' : Tally} {r : Reaction}
    (hprev : rules.prevent_doubles = some true)
    (h : processReaction rules f t r = .ok t') (hI : PDInv t) : PDInv t' := by
  obtain ⟨hnd, hyn, hnn, han, hys, hns, has, hyno, hyab, hnab⟩ := hI
  by_cases hd : r.user ∈ t.doubles
  · rw [processReaction_skip_of_doubles rules f t r hd] at h
    cases h
    exact ⟨hnd, hyn, hnn, han, hys, hns, has, hyno, hyab, hnab⟩
  simp only [processReaction] at h
  rw [if_neg hd] at h
  by_cases hcol : rules.collaborators_only = some true
  · rw [if_pos hcol] at h; cases h
  rw [if_neg hcol] at h
  by_cases hcon : rules.contributors_only = some true ∧ f r.user = false
  · rw [if_pos hcon] at h; cases h
    exact ⟨hnd, hyn, hnn, han, hys, hns, has, hyno, hyab, hnab⟩
  rw [if_neg hcon] at h
  by_cases hwl : whitelistSkip rules r.user = true
  · rw [if_pos hwl] at h; cases h
    exact ⟨hnd, hyn, hnn, han, hys, hns, has, hyno, hyab, hnab⟩
  rw [if_neg hwl] at h
  by_cases hpd : rules.prevent_doubles = some true ∧ r.user ∈ t.users
  · rw [if_pos hpd] at h
    cases h
    refine ⟨hnd.erase _, hyn.erase _, hnn.erase _, han.erase _, ?_, ?_, ?_, ?_, ?_, ?_⟩
    · intro v hv
      rw [hyn.mem_erase_iff] at hv
      exact (hnd.mem_erase_iff).mpr ⟨hv.1, hys v hv.2⟩
    · intro v hv
      rw [hnn.mem_erase_iff] at hv
      exact (hnd.mem_erase_iff).mpr ⟨hv.1, hns v hv.2⟩
    · intro v hv
      rw [han.mem_erase_iff] at hv
      exact (hnd.mem_erase_iff).mpr ⟨hv.1, has v hv.2⟩
    · intro v hv hv'
      exact hyno v (List.mem_of_mem_erase hv) (List.mem_of_mem_erase hv')
    · intro v hv hv'
      exact hyab v (List.mem_of_mem_erase hv) (List.mem_of_mem_erase hv')
    · intro v hv hv'
      exact hnab v (List.mem_of_mem_erase hv) (List.mem_of_mem_erase hv')
  rw [if_neg hpd] at h
  have husers : r.user ∉ t.users := fun hc => hpd ⟨hprev, hc⟩
  have hyu : r.user ∉ t.yes := fun hc => husers (hys _ hc)
  have hno : r.user ∉ t.no := fun hc => husers (hns _ hc)
  have hab : r.user ∉ t.abstain := fun hc => husers (has _ hc)
  by_cases h1 : r.content = "+1"
  · rw [if_pos h1] at h
    cases h
    refine ⟨nodup_addUser_users hnd, ?_, ?_, ?_, ?_, ?_, ?_, ?_, ?_, ?_⟩ <;>
      simp only [addUser_yes, addUser_no, addUser_abstain, mem_addUser_users]
    · simp [List.nodup_append, hyn, hyu]
    · exact hnn
    · exact han
    · intro v hv
      rcases List.mem_append.mp hv with hv | hv
      · exact Or.inl (hys v hv)
      · exact Or.inr (List.mem_singleton.mp hv)
    · exact fun v hv => Or.inl (hns v hv)
    · exact fun v hv => Or.inl (has v hv)
    · intro v hv
      rcases List.mem_append.mp hv with hv | hv
      · exact hyno v hv
      · exact (List.mem_singleton.mp hv) ▸ hno
    · intro v hv
      rcases List.mem_append.mp hv with hv | hv
      · exact hyab v hv
      · exact (List.mem_singleton.mp hv) ▸ hab
    · exact hnab
  rw [if_neg h1] at h
  by_cases h2 : r.content = "-1"
  · rw [if_pos h2] at h
    cases h
    refine ⟨nodup_addUser_users hnd, ?_, ?_, ?_, ?_, ?_, ?_, ?_, ?_, ?_⟩ <;>
      simp only [addUser_yes, addUser_no, addUser_abstain, mem_addUser_users]
    · exact hyn
    · simp [List.nodup_append, hnn, hno]
    · exact han
    · exact fun v hv => Or.inl (hys v hv)
    · intro v hv
      rcases List.mem_append.mp hv with hv | hv
      · exact Or.inl (hns v hv)
      · exact Or.inr (List.mem_singleton.mp hv)
    · exact fun v hv => Or.inl (has v hv)
    · intro v hv hv'
      rcases List.mem_append.mp hv' with hv' | hv'
      · exact hyno v hv hv'
      · exact hyu ((List.mem_singleton.mp hv') ▸ hv)
    · exact hyab
    · intro v hv
      rcases List.mem_append.mp hv with hv | hv
      · exact hnab v hv
      · exact (List.mem_singleton.mp hv) ▸ hab
  rw [if_neg h2] at h
  by_cases h3 : r.content = "confused"
  · rw [if_pos h3] at h
    cases h
    refine ⟨nodup_addUser_users hnd, ?_, ?_, ?_, ?_, ?_, ?_, ?_, ?_, ?_⟩ <;>
      simp only [addUser_yes, addUser_no, addUser_abstain, mem_addUser_users]
    · exact hyn
    · exact hnn
    · simp [List.nodup_append, han, hab]
    · exact fun v hv => Or.inl (hys v hv)
    · exact fun v hv => Or.inl (hns v hv)
    · intro v hv
      rcases List.mem_append.mp hv with hv | hv
      · exact Or.inl (has v hv)
      · exact Or.inr (List.mem_singleton.mp hv)
    · exact hyno
    · intro v hv hv'
      rcases List.mem_append.mp hv' with hv' | hv'
      · exact hyab v hv hv'
      · exact hyu ((List.mem_singleton.mp hv') ▸ hv)
    · intro v hv hv'
      rcases List.mem_append.mp hv' with hv' | hv'
      · exact hnab v hv hv'
      · exact hno ((List.mem_singleton.mp hv') ▸ hv)
  rw [if_neg h3] at h
  cases h
  exact ⟨hnd, hyn, hnn, han, hys, hns, has, hyno, hyab, hnab⟩

theorem buildTallyFrom_pdInv (rules : Rules) (f : String → Bool)
    (hprev : rules.prevent_doubles = some true) :
    ∀ (evs : List Reaction) (t t' : Tally),
      buildTallyFrom rules f t evs = .ok t' → PDInv t → PDInv t'
  | [], t, t', h => by
    cases h; exact id
  | r :: rs, t, t', h => by
    intro hI
    simp only [buildTallyFrom] at h
    cases hp : processReaction rules f t r with
    | error e => rw [hp] at h; cases h
    | ok t1 =>
      rw [hp] at h
      exact buildTallyFrom_pdInv rules f hprev rs t1 t' h
        (processReaction_pdInv hprev hp hI)

/-- C4 counterexample to the claim as stated: with
`prevent_doubles` *not* set, a `+1` from alice followed by a `-1` from
alice leaves alice in both `yes` and `no` — the "at most one of
yes/no/abstain" invariant fails for policies without `prevent_doubles`. -/
theorem tally_overlap_without_prevent_cex :
    buildTally {} (fun _ => true) [⟨"+1", "alice"⟩, ⟨"-1", "alice"⟩] =
      .ok { yes := ["alice"], no := ["alice"], abstain := [],
            users := ["alice"], doubles := [] } ∧
    "alice" ∈ (["alice"] : List String) :=
  ⟨rfl, by decide⟩

/-- C4 as amended: for every event sequence and every policy, whenever
the tally construction completes, no identity is in both `users` and
`doubles`; and when `prevent_doubles` is enabled, every identity is in at
most one of yes/no/abstain.  (Without `prevent_doubles` the latter fails,
see the counterexample.) -/
theorem tally_invariants :
    ∀ (rules : Rules) (f : String → Bool) (evs : List Reaction) (t : Tally),
      buildTally rules f evs = .ok t →
      (∀ u, u ∈ t.users → u ∉ t.doubles) ∧
      (rules.prevent_doubles = some true →
        ∀ u, (u ∈ t.yes → u ∉ t.no ∧ u ∉ t.abstain) ∧
          (u ∈ t.no → u ∉ t.abstain)) := by
  intro rules f evs t h
  constructor
  · exact (buildTallyFrom_usersInv rules f evs {} t h (by simp [UsersInv])).2
  · intro hprev u
    have hI := buildTallyFrom_pdInv rules f hprev evs {} t h (by simp [PDInv])
    obtain ⟨-, -, -, -, -, -, -, hyno, hyab, hnab⟩ := hI
    exact ⟨fun hy => ⟨hyno u hy, hyab u hy⟩, fun hn => hnab u hn⟩

/-- Witness for C4 (amended): instantiated on the single reaction
`(alice, "+1")` under a `prevent_doubles` policy — alice, who is in
`users`, is not in `doubles`. -/
theorem tally_invariants_witness :
    ("alice" : String) ∉ (Tally.mk ["alice"] [] [] ["alice"] []).doubles :=
  (tally_invariants { prevent_doubles := some true } (fun _ => true)
    [⟨"+1", "alice"⟩] (Tally.mk ["alice"] [] [] ["alice"] []) rfl).1
    "alice" (by decide)

end GitConsensus
